import Mathlib

/-!
# Formal model of the ARC payload processor

This development embeds `payload-processor-esm.js` (the `PayloadProcessor`
class) in Lean. Strings are modelled as `List Char`, bytes as `Nat` values
below 256. Platform builtins used by the source — `atob` (forgiving base64
decode), `String.prototype.split`, `String.prototype.match` with the regex
`:(.*?);`, the `Blob` constructor's media-type normalization and
`FileReader.readAsDataURL` — are embedded according to their web
specifications, since their code is not part of the repository.
-/

/-- Standard base64 alphabet, as used by `atob` and by data URLs. -/
def b64Alphabet : List Char :=
("ABCDEFGHIJKLMNOPQRSTUVWXYZabcdefghijklmnopqrstuvwxyz0123456789+/".toList)

/-- The character encoding a six-bit group. -/
def b64Char (n : Nat) : Char := b64Alphabet.getD n '?'

/-- Position of a character in the base64 alphabet, scanning left to right. -/
def b64IndexAux : List Char → Nat → Char → Option Nat
| [], _, _ => none
| a :: r, i, c => if a = c then some i else b64IndexAux r (i + 1) c

/-- Six-bit value of a base64 character, `none` for non-alphabet input. -/
def b64Index (c : Char) : Option Nat := b64IndexAux b64Alphabet 0 c

/-- Six-bit values of a whole string, `none` if any character is invalid. -/
def b64IndexAll : List Char → Option (List Nat)
| [] => some []
| c :: r =>
  match b64Index c, b64IndexAll r with
  | some n, some l => some (n :: l)
  | _, _ => none

/-- ASCII whitespace, removed by forgiving base64 decoding. -/
def isB64Ws (c : Char) : Bool :=
c == '\t' || c == '\n' || c == '\x0c' || c == '\r' || c == ' '

/-- Remove up to two leading `=` characters of a reversed string. -/
def stripPadRev : List Char → List Char
| '=' :: '=' :: r => r
| '=' :: r => r
| l => l

/-- Remove one or two trailing `=` padding characters. -/
def stripB64Pad (l : List Char) : List Char := (stripPadRev l.reverse).reverse

/-- Reassemble bytes from six-bit groups; a trailing group of two or three
sextets contributes one or two bytes, leftover bits are discarded
(forgiving base64, step 4 of the WHATWG algorithm). -/
def b64SextetsToBytes : List Nat → List Nat
| s0 :: s1 :: s2 :: s3 :: rest =>
  (s0 * 4 + s1 / 16) :: (s1 % 16 * 16 + s2 / 4) :: (s2 % 4 * 64 + s3) ::
    b64SextetsToBytes rest
| [s0, s1] => [s0 * 4 + s1 / 16]
| [s0, s1, s2] => [s0 * 4 + s1 / 16, s1 % 16 * 16 + s2 / 4]
| _ => []

/-- The `atob` builtin: the WHATWG forgiving-base64 decode. Remove ASCII
whitespace; when the length is a multiple of four, drop up to two trailing
padding characters; fail when the remaining length is `1 mod 4` or when any
remaining character is outside the alphabet; otherwise reassemble bytes. -/
def atobList (s : List Char) : Option (List Nat) :=
let d0 := s.filter (fun c => !(isB64Ws c))
let d := if d0.length % 4 = 0 then stripB64Pad d0 else d0
if d.length % 4 = 1 then none
else
  match b64IndexAll d with
  | none => none
  | some sx => some (b64SextetsToBytes sx)

/-- Six-bit groups of a byte sequence (big-endian bit order). -/
def sextetsOf : List Nat → List Nat
| a :: b :: c :: rest =>
  a / 4 :: (a % 4 * 16 + b / 16) :: (b % 16 * 4 + c / 64) :: c % 64 ::
    sextetsOf rest
| [a] => [a / 4, a % 4 * 16]
| [a, b] => [a / 4, a % 4 * 16 + b / 16, b % 16 * 4]
| [] => []

/-- Padding emitted after the six-bit groups of a byte sequence. -/
def b64PadOf : List Nat → List Char
| _ :: _ :: _ :: rest => b64PadOf rest
| [_] => ['=', '=']
| [_, _] => ['=']
| [] => []

/-- Standard base64 encoding with `=` padding, as produced by the platform
encoder behind `FileReader.readAsDataURL` (spec section 6). -/
def b64EncodeBytes (l : List Nat) : List Char :=
(sextetsOf l).map b64Char ++ b64PadOf l

/-- Characters before the first comma: element 0 of a JS split on a comma. -/
def beforeComma : List Char → List Char
| [] => []
| c :: r => if c = ',' then [] else c :: beforeComma r

/-- Characters between the first and second comma, `none` when the string has
no comma: element 1 of a JS split on a comma (`undefined` when absent). -/
def afterCommaSeg : List Char → Option (List Char)
| [] => none
| c :: r => if c = ',' then some (beforeComma r) else afterCommaSeg r

/-- Line terminators, which the regex metacharacter for any character does
not match. -/
def isLineTerm (c : Char) : Bool :=
c == '\n' || c == '\r' || c == Char.ofNat 0x2028 || c == Char.ofNat 0x2029

/-- After a colon has been seen: the capture of the lazy group, the
characters up to the first following semicolon, `none` when no semicolon is
reachable on the same line. -/
def matchMimeAux : List Char → Option (List Char)
| [] => none
| c :: r =>
  if c = ';' then some []
  else if isLineTerm c then none
  else (matchMimeAux r).map (fun l => c :: l)

/-- The JS builtin match with the lazy colon-to-semicolon regex, returning
the first capture group of the leftmost match, `none` when there is no
match (in the source a missing match throws when indexed). -/
def jsMatchColonSemi : List Char → Option (List Char)
| [] => none
| c :: r =>
  if c = ':' then
    match matchMimeAux r with
    | some cap => some cap
    | none => jsMatchColonSemi r
  else jsMatchColonSemi r

/-- The `Blob` constructor's media-type normalization (File API): a type
with any character outside the printable ASCII range is replaced by the
empty string, otherwise it is ASCII-lowercased. -/
def normalizeBlobType (t : List Char) : List Char :=
if t.all (fun c => 0x20 ≤ c.toNat && c.toNat ≤ 0x7E) then t.map Char.toLower
else []

/-- An immutable binary value with a byte sequence and a media type, the
model of the platform `Blob`/`File`. -/
structure Blob where
  bytes : List Nat
  type : List Char
deriving DecidableEq

/-- Construction through the platform `Blob` constructor, which normalizes
the supplied media type. -/
def Blob.mkTyped (bytes : List Nat) (t : List Char) : Blob :=
{ bytes := bytes, type := normalizeBlobType t }

/-- One `FormData` field value: a plain string, or a blob (a `File` when the
field carried a file name). -/
inductive FormValue where
| str (s : List Char)
| file (b : Blob) (fileName : Option (List Char))
deriving DecidableEq

/-- The `FormData` container: ordered entries plus the `_arcMeta.textParts`
side channel the source hangs off the object (absent when never set). -/
structure FormData where
  entries : List (List Char × FormValue)
  arcMeta : Option (List (List Char))
deriving DecidableEq

/-- One stored multipart part. The source's part objects carry `name`,
`value`, `isFile` and optionally `isTextBlob`; stored records may in
addition carry `type` and `fileName` keys (declared by the repository's
`MultipartTransformer` typing), which this implementation never writes. A
boolean field stands for a key that is either absent or `false`. -/
structure PartRecord where
  name : List Char
  value : List Char
  isFile : Bool
  isTextBlob : Bool := false
  type : Option (List Char) := none
  fileName : Option (List Char) := none
deriving DecidableEq

/-- The runtime payload variants the source dispatches on. -/
inductive Payload where
| str (s : List Char)
| blob (b : Blob)
| formData (fd : FormData)
deriving DecidableEq

/-- An ArcRequest envelope: the payload-related fields plus the remaining
request metadata, which `Object.assign` copies untouched. -/
structure ArcRequest where
  payload : Option Payload := none
  blob : Option (List Char) := none
  multipart : Option (List PartRecord) := none
  meta : List (List Char × List Char) := []
deriving DecidableEq

/-- Model of `_blobToString`. The source wraps the platform
`FileReader.readAsDataURL`, whose output is modelled from the spec
(sections 4.1 and 6): the blob's media type and standard padded base64
between the fixed markers. -/
def blobToString (blob : Blob) : List Char :=
("data:".toList) ++ blob.type ++ (";base64,".toList) ++
  b64EncodeBytes blob.bytes

/-- The part object built for one iterator entry inside
`_computeFormDataEntry`: blobs are data-URL encoded and classified through
the `textParts` side-channel list, strings pass through. -/
def partOfEntry (textParts : Option (List (List Char))) :
    List Char × FormValue → PartRecord
| (name, FormValue.str s) => { name := name, value := s, isFile := false }
| (name, FormValue.file b _) =>
  let str := blobToString b
  match textParts with
  | some tp =>
    if name ∈ tp then
      { name := name, value := str, isFile := false, isTextBlob := true }
    else { name := name, value := str, isFile := true }
  | none => { name := name, value := str, isFile := true }

/-- Model of `_computeFormDataEntry`: recursion over the remaining iterator
entries, pushing each computed part onto the accumulated `result` array. -/
def computeFormDataEntry (textParts : Option (List (List Char))) :
    List (List Char × FormValue) → List PartRecord → List PartRecord
| [], result => result
| e :: rest, result =>
  computeFormDataEntry textParts rest (result ++ [partOfEntry textParts e])

/-- Model of `_createMultipartEntry`: reads the `_arcMeta.textParts` side
channel and starts the recursion with a fresh result array. -/
def createMultipartEntry (payload : FormData) : List PartRecord :=
computeFormDataEntry payload.arcMeta payload.entries []

/-- Model of `payloadToString`. A missing payload (or, via JS falsiness, an
empty-string payload) and a plain string payload return the request as is;
a FormData payload is replaced by `multipart`, a Blob payload by `blob`.
The source's guard for a FormData value without an `entries` method cannot
fire in this model, where every container iterates. -/
def payloadToString (request : ArcRequest) : ArcRequest :=
match request.payload with
| none => request
| some (Payload.str _) => request
| some (Payload.formData fd) =>
  { request with payload := none, multipart := some (createMultipartEntry fd) }
| some (Payload.blob b) =>
  { request with payload := none, blob := some (blobToString b) }

/-- Model of `_dataURLtoBlob`: split on commas, extract the media type with
the lazy colon-to-semicolon regex (indexing a null match throws), decode the
second split element with `atob` (a missing element is coerced to the
string spelling of `undefined`), and build a typed blob. Exceptions are the
error branch. -/
def dataURLtoBlob (dataurl : List Char) : Except (List Char) Blob :=
let arr0 := beforeComma dataurl
let arr1 := afterCommaSeg dataurl
match jsMatchColonSemi arr0 with
| none => Except.error ("TypeError: cannot read property of null".toList)
| some mime =>
  match atobList (arr1.getD ("undefined".toList)) with
  | none => Except.error ("InvalidCharacterError".toList)
  | some bytes => Except.ok (Blob.mkTyped bytes mime)

/-- The value appended for a binary-marked part in `restoreMultipart`: the
decoded blob, or the empty string when `_dataURLtoBlob` throws (the catch
branch assigns an empty string and swallows the exception). -/
def tryDataURLtoBlobValue (v : List Char) : FormValue :=
match dataURLtoBlob v with
| Except.ok b => FormValue.file b none
| Except.error _ => FormValue.str []

/-- One `forEach` step of `restoreMultipart` over the accumulated
container. -/
def restoreStep (fd : FormData) (part : PartRecord) : FormData :=
if part.isFile then
  { fd with entries := fd.entries ++ [(part.name, tryDataURLtoBlobValue part.value)] }
else if part.isTextBlob then
  { entries := fd.entries ++ [(part.name, tryDataURLtoBlobValue part.value)],
    arcMeta := some (fd.arcMeta.getD [] ++ [part.name]) }
else
  { fd with entries := fd.entries ++ [(part.name, FormValue.str part.value)] }

/-- Model of `restoreMultipart`: an absent or empty model yields an empty
container without the side channel; otherwise the side channel starts as an
empty list and the records are folded in order. -/
def restoreMultipart : Option (List PartRecord) → FormData
| none => { entries := [], arcMeta := none }
| some [] => { entries := [], arcMeta := none }
| some (p :: rest) =>
  (p :: rest).foldl restoreStep { entries := [], arcMeta := some [] }

/-- Model of `restorePayload`. The second component collects the
`console.warn` messages the function emits. A present `multipart` array is
restored even when empty (JS arrays are truthy); a `blob` string is only
restored when nonempty (the empty string is falsy, so the branch is
skipped and the field kept); a decode failure is caught, warned about, and
the `blob` field is still deleted. -/
def restorePayload (request : ArcRequest) : ArcRequest × List (List Char) :=
match request.multipart with
| some m =>
  ({ request with
      payload := some (Payload.formData (restoreMultipart (some m))),
      multipart := none }, [])
| none =>
  match request.blob with
  | some (c :: cs) =>
    match dataURLtoBlob (c :: cs) with
    | Except.ok b =>
      ({ request with payload := some (Payload.blob b), blob := none }, [])
    | Except.error _ =>
      ({ request with blob := none }, [("Unable to restore payload.".toList)])
  | _ => (request, [])

/-- Media types for which the encoded data URL parses back unambiguously:
printable ASCII (hence free of line terminators), no semicolon or comma,
and no uppercase letters (the `Blob` constructor would lowercase them). -/
def mediaTypeOk (m : List Char) : Prop :=
∀ c ∈ m, 0x20 ≤ c.toNat ∧ c.toNat ≤ 0x7E ∧ c ≠ ';' ∧ c ≠ ',' ∧
  ¬(0x41 ≤ c.toNat ∧ c.toNat ≤ 0x5A)

instance mediaTypeOkDec : DecidablePred mediaTypeOk :=
fun m => List.decidableBAll _ m

/-- The data-URL shape exactly as the spec words it (section 4.1): the
literal `data:` prefix, a media type, the literal `;base64,` marker and a
valid base64 payload. Stated from the spec, not from the source, to compare
the two. -/
def specDataUrlShape (s : List Char) : Prop :=
∃ m p, s = ("data:".toList) ++ m ++ (";base64,".toList) ++ p ∧
  mediaTypeOk m ∧ atobList p ≠ none

/-- The value `restoreMultipart` ends up appending for one record. -/
def restoredValue (part : PartRecord) : FormValue :=
if part.isFile then tryDataURLtoBlobValue part.value
else if part.isTextBlob then tryDataURLtoBlobValue part.value
else FormValue.str part.value

/-- The names one record contributes to the restored side channel. -/
def textPartNamesOf (part : PartRecord) : List (List Char) :=
if part.isFile then [] else if part.isTextBlob then [part.name] else []

theorem b64Index_b64Char : ∀ n < 64, b64Index (b64Char n) = some n := by decide

theorem b64Char_ne_pad : ∀ n < 64, b64Char n ≠ '=' := by decide

theorem b64Char_ne_comma : ∀ n < 64, b64Char n ≠ ',' := by decide

theorem b64Char_not_ws : ∀ n < 64, isB64Ws (b64Char n) = false := by decide

theorem sextetsOf_lt (l : List Nat) (h : ∀ x ∈ l, x < 256) :
    ∀ s ∈ sextetsOf l, s < 64 := by
  induction l using sextetsOf.induct with
  | case1 a b c rest ih =>
    have ha := h a (by simp)
    have hb := h b (by simp)
    have hc := h c (by simp)
    intro s hs
    simp only [sextetsOf, List.mem_cons] at hs
    rcases hs with rfl | rfl | rfl | rfl | hs
    · omega
    · omega
    · omega
    · omega
    · exact ih (fun x hx => h x (by simp [hx])) s hs
  | case2 a =>
    have ha := h a (by simp)
    intro s hs
    simp only [sextetsOf, List.mem_cons] at hs
    rcases hs with rfl | rfl | hs
    · omega
    · omega
    · simp at hs
  | case3 a b =>
    have ha := h a (by simp)
    have hb := h b (by simp)
    intro s hs
    simp only [sextetsOf, List.mem_cons] at hs
    rcases hs with rfl | rfl | rfl | hs
    · omega
    · omega
    · omega
    · simp at hs
  | case4 => intro s hs; simp [sextetsOf] at hs

theorem b64SextetsToBytes_sextetsOf (l : List Nat) (h : ∀ x ∈ l, x < 256) :
    b64SextetsToBytes (sextetsOf l) = l := by
  induction l using sextetsOf.induct with
  | case1 a b c rest ih =>
    have ha := h a (by simp)
    have hb := h b (by simp)
    have hc := h c (by simp)
    have hrest := ih (fun x hx => h x (by simp [hx]))
    simp only [sextetsOf, b64SextetsToBytes, hrest, List.cons.injEq, and_true, true_and]
    omega
  | case2 a =>
    have ha := h a (by simp)
    simp only [sextetsOf, b64SextetsToBytes, List.cons.injEq, and_true, true_and]
    omega
  | case3 a b =>
    have ha := h a (by simp)
    have hb := h b (by simp)
    simp only [sextetsOf, b64SextetsToBytes, List.cons.injEq, and_true, true_and]
    omega
  | case4 => rfl

theorem stripPadRev_pad2 (r : List Char) : stripPadRev ('=' :: '=' :: r) = r := rfl

theorem stripPadRev_pad1 (c : Char) (r : List Char) (hc : c ≠ '=') :
    stripPadRev ('=' :: c :: r) = c :: r := by
  unfold stripPadRev
  split
  · rename_i h
    rw [List.cons.injEq, List.cons.injEq] at h
    exact absurd h.2.1 hc
  · rename_i h
    rw [List.cons.injEq] at h
    exact h.2.symm
  · rename_i h1 h2
    exact absurd rfl (h2 (c :: r))

theorem stripPadRev_of_head_ne (c : Char) (r : List Char) (hc : c ≠ '=') :
    stripPadRev (c :: r) = c :: r := by
  unfold stripPadRev
  split
  · rename_i h
    rw [List.cons.injEq] at h
    exact absurd h.1 hc
  · rename_i h
    rw [List.cons.injEq] at h
    exact absurd h.1 hc
  · rfl

theorem stripB64Pad_no_pad (xs : List Char) (h : ∀ c ∈ xs, c ≠ '=') :
    stripB64Pad xs = xs := by
  unfold stripB64Pad
  cases hrev : xs.reverse with
  | nil =>
    have : xs = [] := by simpa using congrArg List.reverse hrev
    simp [this, stripPadRev]
  | cons c r =>
    have hc : c ≠ '=' := h c (by rw [← List.mem_reverse, hrev]; simp)
    rw [stripPadRev_of_head_ne c r hc, ← hrev, List.reverse_reverse]

theorem stripB64Pad_pad2 (xs : List Char) :
    stripB64Pad (xs ++ ['=', '=']) = xs := by
  unfold stripB64Pad
  rw [List.reverse_append]
  rw [show (['=', '='] : List Char).reverse = ['=', '='] from rfl]
  rw [List.cons_append, List.cons_append, List.nil_append]
  rw [stripPadRev_pad2, List.reverse_reverse]

theorem stripB64Pad_pad1 (xs : List Char) (c : Char) (hc : c ≠ '=') :
    stripB64Pad ((xs ++ [c]) ++ ['=']) = xs ++ [c] := by
  unfold stripB64Pad
  rw [List.reverse_append, List.reverse_append]
  rw [show (['='] : List Char).reverse = ['='] from rfl]
  rw [show ([c] : List Char).reverse = [c] from rfl]
  rw [List.cons_append, List.nil_append, List.cons_append, List.nil_append]
  rw [stripPadRev_pad1 c _ hc]
  rw [show (c :: xs.reverse) = ([c] ++ xs.reverse) from rfl]
  rw [List.reverse_append, List.reverse_reverse]
  rfl

theorem stripB64Pad_append (xs ys : List Char) (h : 2 ≤ ys.length) :
    stripB64Pad (xs ++ ys) = xs ++ stripB64Pad ys := by
  unfold stripB64Pad
  cases hrev : ys.reverse with
  | nil =>
    have : ys = [] := by simpa using congrArg List.reverse hrev
    subst this; simp at h
  | cons y0 t0 =>
    cases t0 with
    | nil =>
      have : ys.length = 1 := by
        have := congrArg List.length hrev
        simpa using this
      omega
    | cons y1 t =>
      have hys : (xs ++ ys).reverse = y0 :: y1 :: (t ++ xs.reverse) := by
        rw [List.reverse_append, hrev]; rfl
      rw [hys]
      by_cases h0 : y0 = '='
      · subst h0
        by_cases h1 : y1 = '='
        · subst h1
          rw [stripPadRev_pad2, stripPadRev_pad2, List.reverse_append,
            List.reverse_reverse]
        · rw [stripPadRev_pad1 y1 _ h1, stripPadRev_pad1 y1 _ h1]
          rw [show y1 :: (t ++ xs.reverse) = (y1 :: t) ++ xs.reverse from rfl]
          rw [List.reverse_append, List.reverse_reverse]
      · rw [stripPadRev_of_head_ne y0 _ h0, stripPadRev_of_head_ne y0 _ h0]
        rw [show y0 :: y1 :: (t ++ xs.reverse) = (y0 :: y1 :: t) ++ xs.reverse
          from rfl]
        rw [List.reverse_append, List.reverse_reverse]

theorem mem_b64PadOf (l : List Nat) (c : Char) (h : c ∈ b64PadOf l) : c = '=' := by
  induction l using b64PadOf.induct with
  | case1 a b d rest ih => exact ih (by simpa [b64PadOf] using h)
  | case2 a =>
    simp only [b64PadOf, List.mem_cons] at h
    rcases h with rfl | h
    · rfl
    · simpa using h
  | case3 a b =>
    simp only [b64PadOf, List.mem_cons] at h
    rcases h with rfl | h
    · rfl
    · simp at h
  | case4 => simp [b64PadOf] at h

theorem b64EncodeBytes_mem (l : List Nat) (c : Char) (hc : c ∈ b64EncodeBytes l) :
    (∃ s ∈ sextetsOf l, c = b64Char s) ∨ c = '=' := by
  unfold b64EncodeBytes at hc
  rcases List.mem_append.mp hc with hm | hp
  · rcases List.mem_map.mp hm with ⟨s, hs, rfl⟩
    exact Or.inl ⟨s, hs, rfl⟩
  · exact Or.inr (mem_b64PadOf l c hp)

theorem b64EncodeBytes_filter (l : List Nat) (h : ∀ x ∈ l, x < 256) :
    (b64EncodeBytes l).filter (fun c => !(isB64Ws c)) = b64EncodeBytes l := by
  apply List.filter_eq_self.mpr
  intro c hc
  rcases b64EncodeBytes_mem l c hc with ⟨s, hs, rfl⟩ | rfl
  · have hw := b64Char_not_ws s (sextetsOf_lt l h s hs)
    simp [hw]
  · decide

theorem b64EncodeBytes_len_mod (l : List Nat) :
    (b64EncodeBytes l).length % 4 = 0 := by
  induction l using b64PadOf.induct with
  | case1 a b d rest ih =>
    unfold b64EncodeBytes at ih ⊢
    simp only [sextetsOf, b64PadOf, List.map_cons, List.cons_append,
      List.length_cons, List.length_append, List.length_map] at ih ⊢
    omega
  | case2 a => simp [b64EncodeBytes, sextetsOf, b64PadOf]
  | case3 a b => simp [b64EncodeBytes, sextetsOf, b64PadOf]
  | case4 => rfl

theorem b64EncodeBytes_len_ge (l : List Nat) (h : l ≠ []) :
    4 ≤ (b64EncodeBytes l).length := by
  induction l using b64PadOf.induct with
  | case1 a b d rest ih =>
    unfold b64EncodeBytes
    simp only [sextetsOf, b64PadOf, List.map_cons, List.cons_append,
      List.length_cons, List.length_append, List.length_map]
    omega
  | case2 a => simp [b64EncodeBytes, sextetsOf, b64PadOf]
  | case3 a b => simp [b64EncodeBytes, sextetsOf, b64PadOf]
  | case4 => exact absurd rfl h

theorem sextetsOf_len_mod (l : List Nat) : (sextetsOf l).length % 4 ≠ 1 := by
  induction l using sextetsOf.induct with
  | case1 a b c rest ih =>
    simp only [sextetsOf, List.length_cons] at ih ⊢
    omega
  | case2 a => simp [sextetsOf]
  | case3 a b => simp [sextetsOf]
  | case4 => decide

theorem stripB64Pad_b64EncodeBytes (l : List Nat) (h : ∀ x ∈ l, x < 256) :
    stripB64Pad (b64EncodeBytes l) = (sextetsOf l).map b64Char := by
  induction l using b64PadOf.induct with
  | case1 a b d rest ih =>
    have hkey : b64EncodeBytes (a :: b :: d :: rest) =
        [b64Char (a / 4), b64Char (a % 4 * 16 + b / 16),
         b64Char (b % 16 * 4 + d / 64), b64Char (d % 64)] ++
          b64EncodeBytes rest := by
      unfold b64EncodeBytes
      simp [sextetsOf, b64PadOf]
    have ha := h a (by simp)
    have hb := h b (by simp)
    have hd := h d (by simp)
    rw [hkey]
    cases rest with
    | nil =>
      rw [show b64EncodeBytes [] = [] from rfl, List.append_nil]
      rw [stripB64Pad_no_pad]
      · simp [sextetsOf]
      · intro c hc
        simp only [List.mem_cons] at hc
        rcases hc with rfl | rfl | rfl | rfl | hc
        · exact b64Char_ne_pad _ (by omega)
        · exact b64Char_ne_pad _ (by omega)
        · exact b64Char_ne_pad _ (by omega)
        · exact b64Char_ne_pad _ (by omega)
        · simp at hc
    | cons r0 rs =>
      rw [stripB64Pad_append _ _
        (le_trans (by omega) (b64EncodeBytes_len_ge (r0 :: rs) (by simp)))]
      rw [ih (fun x hx => h x (by simp [hx]))]
      simp [sextetsOf]
  | case2 a =>
    have ha := h a (by simp)
    show stripB64Pad ((sextetsOf [a]).map b64Char ++ b64PadOf [a]) = _
    rw [show b64PadOf [a] = ['=', '='] from rfl]
    exact stripB64Pad_pad2 _
  | case3 a b =>
    have ha := h a (by simp)
    have hb := h b (by simp)
    show stripB64Pad ((sextetsOf [a, b]).map b64Char ++ b64PadOf [a, b]) = _
    rw [show b64PadOf [a, b] = ['='] from rfl]
    rw [show (sextetsOf [a, b]).map b64Char =
      [b64Char (a / 4), b64Char (a % 4 * 16 + b / 16)] ++
        [b64Char (b % 16 * 4)] from rfl]
    rw [stripB64Pad_pad1 _ _ (b64Char_ne_pad _ (by omega))]
  | case4 => rfl

theorem b64IndexAll_map (S : List Nat) (h : ∀ s ∈ S, s < 64) :
    b64IndexAll (S.map b64Char) = some S := by
  induction S with
  | nil => rfl
  | cons s S ih =>
    have h1 := b64Index_b64Char s (h s (by simp))
    have h2 := ih (fun x hx => h x (by simp [hx]))
    simp only [List.map_cons, b64IndexAll, h1, h2]

theorem atobList_b64EncodeBytes (l : List Nat) (h : ∀ x ∈ l, x < 256) :
    atobList (b64EncodeBytes l) = some l := by
  unfold atobList
  simp only [b64EncodeBytes_filter l h]
  rw [if_pos (b64EncodeBytes_len_mod l)]
  rw [stripB64Pad_b64EncodeBytes l h]
  rw [if_neg (by rw [List.length_map]; exact sextetsOf_len_mod l)]
  rw [b64IndexAll_map _ (sextetsOf_lt l h)]
  simp only [b64SextetsToBytes_sextetsOf l h]

theorem partOfEntry_name (tp : Option (List (List Char)))
    (e : List Char × FormValue) : (partOfEntry tp e).name = e.1 := by
  obtain ⟨name, v⟩ := e
  cases v with
  | str s => rfl
  | file b fn =>
    cases tp with
    | none => rfl
    | some t =>
      by_cases h : name ∈ t
      · simp [partOfEntry, h]
      · simp [partOfEntry, h]

theorem computeFormDataEntry_eq (tp : Option (List (List Char)))
    (entries : List (List Char × FormValue)) (res : List PartRecord) :
    computeFormDataEntry tp entries res = res ++ entries.map (partOfEntry tp) := by
  induction entries generalizing res with
  | nil => simp [computeFormDataEntry]
  | cons e rest ih =>
    rw [computeFormDataEntry, ih]
    simp

theorem restoreStep_eq (fd : FormData) (A : List (List Char))
    (hA : fd.arcMeta = some A) (part : PartRecord) :
    restoreStep fd part =
      { entries := fd.entries ++ [(part.name, restoredValue part)],
        arcMeta := some (A ++ textPartNamesOf part) } := by
  unfold restoreStep restoredValue textPartNamesOf
  by_cases h1 : part.isFile
  · simp [h1, hA]
  · by_cases h2 : part.isTextBlob
    · simp [h1, h2, hA]
    · simp [h1, h2, hA]

theorem foldl_restoreStep (l : List PartRecord)
    (E : List (List Char × FormValue)) (A : List (List Char)) :
    l.foldl restoreStep { entries := E, arcMeta := some A } =
      { entries := E ++ l.map (fun p => (p.name, restoredValue p)),
        arcMeta := some (A ++ l.foldr (fun p r => textPartNamesOf p ++ r) []) } := by
  induction l generalizing E A with
  | nil => simp
  | cons p rest ih =>
    rw [List.foldl_cons, restoreStep_eq _ A rfl p, ih]
    simp [List.append_assoc]

theorem restoreMultipart_cons (p : PartRecord) (rest : List PartRecord) :
    restoreMultipart (some (p :: rest)) =
      { entries := (p :: rest).map (fun q => (q.name, restoredValue q)),
        arcMeta :=
          some ((p :: rest).foldr (fun q r => textPartNamesOf q ++ r) []) } := by
  rw [show restoreMultipart (some (p :: rest)) =
    (p :: rest).foldl restoreStep { entries := [], arcMeta := some [] } from rfl]
  rw [foldl_restoreStep]
  simp

theorem beforeComma_append (x y : List Char) (h : ∀ c ∈ x, c ≠ ',') :
    beforeComma (x ++ ',' :: y) = x := by
  induction x with
  | nil => simp [beforeComma]
  | cons c r ih =>
    have hc : c ≠ ',' := h c (by simp)
    rw [List.cons_append, beforeComma, if_neg hc,
      ih (fun d hd => h d (by simp [hd]))]

theorem beforeComma_all (x : List Char) (h : ∀ c ∈ x, c ≠ ',') :
    beforeComma x = x := by
  induction x with
  | nil => rfl
  | cons c r ih =>
    have hc : c ≠ ',' := h c (by simp)
    rw [beforeComma, if_neg hc, ih (fun d hd => h d (by simp [hd]))]

theorem afterCommaSeg_append (x y : List Char) (h : ∀ c ∈ x, c ≠ ',') :
    afterCommaSeg (x ++ ',' :: y) = some (beforeComma y) := by
  induction x with
  | nil => simp [afterCommaSeg]
  | cons c r ih =>
    have hc : c ≠ ',' := h c (by simp)
    rw [List.cons_append, afterCommaSeg, if_neg hc,
      ih (fun d hd => h d (by simp [hd]))]

theorem matchMimeAux_semi (m y : List Char)
    (h : ∀ c ∈ m, c ≠ ';' ∧ isLineTerm c = false) :
    matchMimeAux (m ++ ';' :: y) = some m := by
  induction m with
  | nil => simp [matchMimeAux]
  | cons c r ih =>
    obtain ⟨h1, h2⟩ := h c (by simp)
    rw [List.cons_append, matchMimeAux, if_neg h1, h2]
    rw [ih (fun d hd => h d (by simp [hd]))]
    rfl

theorem jsMatch_dataUrl (m y : List Char)
    (h : ∀ c ∈ m, c ≠ ';' ∧ isLineTerm c = false) :
    jsMatchColonSemi (("data:".toList) ++ m ++ ';' :: y) = some m := by
  rw [show ("data:".toList) ++ m ++ ';' :: y =
    'd' :: 'a' :: 't' :: 'a' :: ':' :: (m ++ ';' :: y) from rfl]
  rw [jsMatchColonSemi, if_neg (by decide)]
  rw [jsMatchColonSemi, if_neg (by decide)]
  rw [jsMatchColonSemi, if_neg (by decide)]
  rw [jsMatchColonSemi, if_neg (by decide)]
  rw [jsMatchColonSemi, if_pos rfl]
  rw [matchMimeAux_semi m y h]

theorem normalizeBlobType_fix (m : List Char) (hm : mediaTypeOk m) :
    normalizeBlobType m = m := by
  unfold normalizeBlobType
  rw [if_pos]
  · have : ∀ c ∈ m, Char.toLower c = c := by
      intro c hc
      obtain ⟨h1, h2, _, _, h5⟩ := hm c hc
      unfold Char.toLower
      rw [if_neg]
      simp only [Bool.and_eq_true, decide_eq_true_eq, not_and]
      intro hge
      omega
    calc m.map Char.toLower = m.map id := List.map_congr_left this
    _ = m := List.map_id m
  · rw [List.all_eq_true]
    intro c hc
    obtain ⟨h1, h2, _⟩ := hm c hc
    simp only [Bool.and_eq_true, decide_eq_true_eq]
    exact ⟨h1, h2⟩

theorem mediaTypeOk_chars (m : List Char) (hm : mediaTypeOk m) :
    ∀ c ∈ m, c ≠ ';' ∧ isLineTerm c = false := by
  intro c hc
  obtain ⟨h1, h2, h3, _, _⟩ := hm c hc
  refine ⟨h3, ?_⟩
  unfold isLineTerm
  have e1 : (c == '\n') = false := by
    rw [beq_eq_false_iff_ne]
    intro hEq
    rw [hEq] at h1
    simp at h1
  have e2 : (c == '\r') = false := by
    rw [beq_eq_false_iff_ne]
    intro hEq
    rw [hEq] at h1
    simp at h1
  have e3 : (c == Char.ofNat 0x2028) = false := by
    rw [beq_eq_false_iff_ne]
    intro hEq
    rw [hEq] at h2
    simp at h2
  have e4 : (c == Char.ofNat 0x2029) = false := by
    rw [beq_eq_false_iff_ne]
    intro hEq
    rw [hEq] at h2
    simp at h2
  rw [e1, e2, e3, e4]
  rfl

theorem b64EncodeBytes_ne_comma (l : List Nat) (h : ∀ x ∈ l, x < 256) :
    ∀ c ∈ b64EncodeBytes l, c ≠ ',' := by
  intro c hc
  rcases b64EncodeBytes_mem l c hc with ⟨s, hs, rfl⟩ | rfl
  · exact b64Char_ne_comma s (sextetsOf_lt l h s hs)
  · decide

theorem dataURLtoBlob_encode (b : List Nat) (m : List Char)
    (hb : ∀ x ∈ b, x < 256) (hm : mediaTypeOk m) :
    dataURLtoBlob (("data:".toList) ++ m ++ (";base64,".toList) ++
      b64EncodeBytes b) = Except.ok { bytes := b, type := m } := by
  have hmc : ∀ c ∈ m, c ≠ ',' := fun c hc => (hm c hc).2.2.2.1
  have hd1 : ∀ c ∈ ("data:".toList), c ≠ ',' := by decide
  have hd2 : ∀ c ∈ (";base64".toList), c ≠ ',' := by decide
  have hpre : ∀ c ∈ ("data:".toList) ++ m ++ (";base64".toList), c ≠ ',' := by
    intro c hc
    simp only [List.mem_append] at hc
    rcases hc with (hc | hc) | hc
    · exact hd1 c hc
    · exact hmc c hc
    · exact hd2 c hc
  have hsplit : ("data:".toList) ++ m ++ (";base64,".toList) ++ b64EncodeBytes b
      = (("data:".toList) ++ m ++ (";base64".toList)) ++
        ',' :: b64EncodeBytes b := by
    simp only [List.append_assoc, List.cons_append, List.nil_append]
    rfl
  rw [hsplit]
  simp only [dataURLtoBlob]
  rw [beforeComma_append _ _ hpre]
  rw [afterCommaSeg_append _ _ hpre]
  rw [show ("data:".toList) ++ m ++ (";base64".toList) =
    ("data:".toList) ++ m ++ ';' :: ("base64".toList) from rfl]
  rw [jsMatch_dataUrl m _ (mediaTypeOk_chars m hm)]
  rw [beforeComma_all _ (b64EncodeBytes_ne_comma b hb)]
  rw [show (some (b64EncodeBytes b)).getD ("undefined".toList) =
    b64EncodeBytes b from rfl]
  rw [atobList_b64EncodeBytes b hb]
  show Except.ok (Blob.mkTyped b m) = Except.ok { bytes := b, type := m }
  rw [show Blob.mkTyped b m = { bytes := b, type := normalizeBlobType m } from rfl]
  rw [normalizeBlobType_fix m hm]

/-- C1: codec round trip — `_dataURLtoBlob` applied to the `_blobToString`
encoding of a blob with byte sequence `b` and media type `m` yields a blob
with exactly the bytes `b` and the media type `m`. The media type is
assumed to be in the normal form the platform `Blob` constructor
guarantees, free of the delimiter characters of the data-URL syntax. -/
theorem c1_codec_round_trip (b : List Nat) (m : List Char)
    (hb : ∀ x ∈ b, x < 256) (hm : mediaTypeOk m) :
    dataURLtoBlob (blobToString { bytes := b, type := m }) =
      Except.ok { bytes := b, type := m } := by
  unfold blobToString
  exact dataURLtoBlob_encode b m hb hm

/-- Witness for C1 at the repository's own test vector, three `*` bytes of
type `text/plain`. -/
theorem c1_codec_round_trip_witness :
    (∀ x ∈ [42, 42, 42], x < 256) ∧ mediaTypeOk ("text/plain".toList) ∧
    dataURLtoBlob (blobToString
        { bytes := [42, 42, 42], type := ("text/plain".toList) }) =
      Except.ok { bytes := [42, 42, 42], type := ("text/plain".toList) } :=
  ⟨by decide, by decide,
    c1_codec_round_trip [42, 42, 42] ("text/plain".toList) (by decide) (by decide)⟩

/-- C2: multipart order preservation — the part-record list emitted by
`_createMultipartEntry` carries the container's field names in exactly the
container's insertion order, one record per field. -/
theorem c2_multipart_order (fd : FormData) :
    (createMultipartEntry fd).map PartRecord.name = fd.entries.map Prod.fst := by
  unfold createMultipartEntry
  rw [computeFormDataEntry_eq, List.nil_append, List.map_map]
  exact List.map_congr_left (fun e he => partOfEntry_name fd.arcMeta e)

/-- C3 evaluation: the encoder drops the file name. The record produced for
a file field that carried the file name `file-name` has no `fileName` key,
where the claim (and the repository's declaration file and newer test)
expects `fileName` to be populated. -/
theorem c3_fileName_dropped :
    createMultipartEntry
      { entries := [(("file".toList),
          FormValue.file { bytes := [42, 42, 42], type := ("text/plain".toList) }
            (some ("file-name".toList)))],
        arcMeta := none } =
      [{ name := ("file".toList), value := ("data:text/plain;base64,Kioq".toList),
         isFile := true, isTextBlob := false, type := none, fileName := none }] := by
  rfl

/-- C4 evaluation: a text-marked blob field encodes with the `isTextBlob`
flag and no `type` key, where the claim (and the repository's newer test)
expects a `type` key holding the media type. -/
theorem c4_type_field_absent :
    createMultipartEntry
      { entries := [(("text-part".toList),
          FormValue.file { bytes := [42, 42, 42], type := ("text/plain".toList) }
            none)],
        arcMeta := some [("text-part".toList)] } =
      [{ name := ("text-part".toList),
         value := ("data:text/plain;base64,Kioq".toList),
         isFile := false, isTextBlob := true, type := none, fileName := none }] := by
  rfl

/-- C5 counterexample: a string without the `data:` prefix (so outside the
spec's data-URL shape) is decoded without any error — `_dataURLtoBlob` never
checks the prefix, only the colon-to-semicolon segment and the base64
payload. -/
theorem c5_counterexample :
    (∃ bl, dataURLtoBlob ("x:y;,Kioq".toList) = Except.ok bl) ∧
    ¬ specDataUrlShape ("x:y;,Kioq".toList) := by
  constructor
  · exact ⟨{ bytes := [42, 42, 42], type := ("y".toList) }, by rfl⟩
  · rintro ⟨m, p, hshape, hmok, hb64⟩
    rw [List.append_assoc, List.append_assoc] at hshape
    have h5 := congrArg (List.take 5) hshape
    rw [List.take_append_of_le_length (by decide)] at h5
    exact absurd h5 (by decide)

/-- C5 (amended): `_dataURLtoBlob` raises exactly when the lazy
colon-to-semicolon match fails on the segment before the first comma, or
when `atob` rejects the segment between the first and second commas (the
spelling of `undefined` when there is no comma); and every string of the
full `data:<media-type>;base64,<payload>` shape with a valid base64 payload
is decoded successfully. It never raises merely because the `data:` prefix
or the `;base64` marker is absent. -/
theorem c5_decode_error_characterization :
    (∀ s : List Char, (∃ e, dataURLtoBlob s = Except.error e) ↔
      (jsMatchColonSemi (beforeComma s) = none ∨
        atobList ((afterCommaSeg s).getD ("undefined".toList)) = none)) ∧
    (∀ (b : List Nat) (m : List Char), (∀ x ∈ b, x < 256) → mediaTypeOk m →
      dataURLtoBlob (("data:".toList) ++ m ++ (";base64,".toList) ++
        b64EncodeBytes b) = Except.ok { bytes := b, type := m }) := by
  constructor
  · intro s
    simp only [dataURLtoBlob]
    cases h1 : jsMatchColonSemi (beforeComma s) with
    | none => simp
    | some mime =>
      cases h2 : atobList ((afterCommaSeg s).getD ("undefined".toList)) with
      | none => simp
      | some bytes => simp
  · exact dataURLtoBlob_encode

/-- Witness for C5's amended statement at the repository's test vector. -/
theorem c5_decode_error_characterization_witness :
    (∀ x ∈ [42, 42, 42], x < 256) ∧ mediaTypeOk ("text/plain".toList) ∧
    dataURLtoBlob (("data:".toList) ++ ("text/plain".toList) ++
        (";base64,".toList) ++ b64EncodeBytes [42, 42, 42]) =
      Except.ok { bytes := [42, 42, 42], type := ("text/plain".toList) } :=
  ⟨by decide, by decide,
    c5_decode_error_characterization.2 [42, 42, 42] ("text/plain".toList)
      (by decide) (by decide)⟩

/-- C6 counterexample: the empty string is a JS-falsy `blob` value, so an
envelope whose `blob` field is the empty string — which `_dataURLtoBlob`
would reject — is returned with the `blob` field still present, against the
claim that the storable field is always removed on a failed decode. -/
theorem c6_counterexample :
    (∃ e, dataURLtoBlob ([] : List Char) = Except.error e) ∧
    restorePayload { payload := none, blob := some [], multipart := none,
                     meta := [] } =
      ({ payload := none, blob := some [], multipart := none, meta := [] },
        []) :=
  ⟨⟨("TypeError: cannot read property of null".toList), by rfl⟩, by rfl⟩

/-- C6 (amended): for an envelope with no `multipart` and a nonempty `blob`
string whose decode throws, `restorePayload` catches the failure (emitting
one warning), removes the `blob` field, and leaves every other field —
`payload` included — unchanged. -/
theorem c6_blob_decode_degradation (r : ArcRequest) (s : List Char)
    (hm : r.multipart = none) (hbl : r.blob = some s) (hne : s ≠ [])
    (herr : ∃ e, dataURLtoBlob s = Except.error e) :
    restorePayload r =
      ({ r with blob := none }, [("Unable to restore payload.".toList)]) := by
  obtain ⟨e, he⟩ := herr
  cases s with
  | nil => exact absurd rfl hne
  | cons c cs => simp only [restorePayload, hm, hbl, he]

/-- Witness for C6's amended statement at the spec's own malformed input. -/
theorem c6_blob_decode_degradation_witness :
    restorePayload { payload := none, blob := some ("not-a-data-url".toList),
                     multipart := none, meta := [] } =
      ({ payload := none, blob := none, multipart := none, meta := [] },
        [("Unable to restore payload.".toList)]) :=
  c6_blob_decode_degradation _ ("not-a-data-url".toList) rfl rfl (by decide)
    ⟨("TypeError: cannot read property of null".toList), by rfl⟩

/-- C7 counterexample: a binary-marked record whose stored value fails to
decode is restored as an empty string, but nothing is surfaced to the
caller — the whole restore completes with an empty warning list, against
the claim that the failure is surfaced for logging. -/
theorem c7_counterexample :
    (∃ e, dataURLtoBlob ("zzz".toList) = Except.error e) ∧
    restorePayload { payload := none, blob := none,
                     multipart := some [{ name := ("a".toList),
                                          value := ("zzz".toList),
                                          isFile := true }],
                     meta := [] } =
      ({ payload := some (Payload.formData
            { entries := [(("a".toList), FormValue.str [])],
              arcMeta := some [] }),
         blob := none, multipart := none, meta := [] }, []) :=
  ⟨⟨("TypeError: cannot read property of null".toList), by rfl⟩, by rfl⟩

/-- C7 (amended): for every record list and every index holding a
binary-marked record (`isFile`, or text-blob-marked) whose stored value
fails to decode, `restoreMultipart` substitutes the empty string as that
field's value and still restores all records — one entry per record — but
the failure is swallowed silently inside the loop. -/
theorem c7_part_decode_substitution (l : List PartRecord) (i : Nat)
    (h : i < l.length)
    (hbin : l[i].isFile = true ∨ (l[i].isFile = false ∧ l[i].isTextBlob = true))
    (herr : ∃ e, dataURLtoBlob l[i].value = Except.error e) :
    (restoreMultipart (some l)).entries.length = l.length ∧
    (restoreMultipart (some l)).entries[i]? =
      some (l[i].name, FormValue.str []) := by
  obtain ⟨e, he⟩ := herr
  cases l with
  | nil => exact absurd h (by simp)
  | cons p rest =>
    rw [restoreMultipart_cons]
    constructor
    · simp
    · have hv : restoredValue ((p :: rest)[i]) = FormValue.str [] := by
        rcases hbin with hf | ⟨hf, ht⟩
        · simp [restoredValue, tryDataURLtoBlobValue, hf, he]
        · simp [restoredValue, tryDataURLtoBlobValue, hf, ht, he]
      show ((p :: rest).map (fun q => (q.name, restoredValue q)))[i]? = _
      rw [List.getElem?_map, List.getElem?_eq_getElem h]
      simp [hv]

/-- Witness for C7's amended statement: one file-marked record with an
undecodable value. -/
theorem c7_part_decode_substitution_witness :
    (restoreMultipart (some [{ name := ("a".toList), value := ("zzz".toList),
                               isFile := true }])).entries.length = 1 ∧
    (restoreMultipart (some [{ name := ("a".toList), value := ("zzz".toList),
                               isFile := true }])).entries[0]? =
      some (("a".toList), FormValue.str []) :=
  c7_part_decode_substitution
    [{ name := ("a".toList), value := ("zzz".toList), isFile := true }] 0
    (by decide) (Or.inl rfl)
    ⟨("TypeError: cannot read property of null".toList), by rfl⟩

/-- C8: encode identity — `payloadToString` returns the envelope itself,
every field unchanged, whenever the payload is absent or a plain string. -/
theorem c8_encode_identity (r : ArcRequest)
    (h : r.payload = none ∨ ∃ s, r.payload = some (Payload.str s)) :
    payloadToString r = r := by
  unfold payloadToString
  rcases h with h | ⟨s, h⟩ <;> rw [h]

/-- Witness for C8 on a string-payload request carrying extra metadata. -/
theorem c8_encode_identity_witness :
    payloadToString { payload := some (Payload.str ("test".toList)),
                      blob := none, multipart := none,
                      meta := [(("url".toList),
                                ("https://domain.com".toList))] } =
      { payload := some (Payload.str ("test".toList)), blob := none,
        multipart := none,
        meta := [(("url".toList), ("https://domain.com".toList))] } :=
  c8_encode_identity _ (Or.inr ⟨_, rfl⟩)

/-- C9 evaluation: a record marked only by a `type` key (`isFile` false, no
`isTextBlob` flag) is neither decoded nor recorded in the side channel —
the restored container keeps the raw data-URL string and an empty
`textParts` list, where the claim (and the repository's newer test) expects
the `type` marker to trigger blob reconstruction and side-channel
repopulation. -/
theorem c9_type_marker_ignored :
    restoreMultipart (some [{ name := ("test-name".toList),
                              value := ("data:text/plain;base64,Kioq".toList),
                              isFile := false, isTextBlob := false,
                              type := some ("text/plain".toList),
                              fileName := none }]) =
      { entries := [(("test-name".toList),
          FormValue.str ("data:text/plain;base64,Kioq".toList))],
        arcMeta := some [] } := by
  rfl

/-- C10: storable-field precedence — when both `multipart` and `blob` are
populated, `restorePayload` restores from the multipart records, removes
only `multipart`, and the `blob` field is left on the envelope untouched. -/
theorem c10_storable_precedence (r : ArcRequest) (l : List PartRecord)
    (s : List Char) (hm : r.multipart = some l) (hbl : r.blob = some s) :
    restorePayload r =
      ({ r with payload := some (Payload.formData (restoreMultipart (some l))),
                multipart := none }, []) ∧
    ({ r with payload := some (Payload.formData (restoreMultipart (some l))),
              multipart := none } : ArcRequest).blob = some s := by
  constructor
  · simp only [restorePayload, hm]
  · simp [hbl]

/-- Witness for C10: an envelope holding both storable fields. -/
theorem c10_storable_precedence_witness :
    restorePayload { payload := none,
                     blob := some ("data:text/plain;base64,Kioq".toList),
                     multipart := some [], meta := [] } =
      ({ payload := some (Payload.formData { entries := [], arcMeta := none }),
         blob := some ("data:text/plain;base64,Kioq".toList),
         multipart := none, meta := [] }, []) ∧
    ({ payload := some (Payload.formData { entries := [], arcMeta := none }),
       blob := some ("data:text/plain;base64,Kioq".toList),
       multipart := none, meta := [] } : ArcRequest).blob =
      some ("data:text/plain;base64,Kioq".toList) :=
  c10_storable_precedence
    { payload := none, blob := some ("data:text/plain;base64,Kioq".toList),
      multipart := some [], meta := [] }
    [] ("data:text/plain;base64,Kioq".toList) rfl rfl
